import Mathlib

/-!
Verification of the nativepg PostgreSQL client library core against its C++
sources: the field codec layer (src/include/nativepg/types/datetime.hpp and
src/src/response.cpp), the result-set position map and response router
(src/src/response.cpp, response.hpp), and the request builder
(src/include/nativepg/request.hpp).

Conventions of the shallow embedding:
* C++ `int` is 32 bits, `std::int16_t` / `std::int32_t` / `std::int64_t` are
  16 / 32 / 64 bits; `std::from_chars` range failures are modelled with
  explicit bounds.
* byte buffers are `List Nat` with entries in `[0, 255]`; text inputs are
  `List Char` (the sources reinterpret `unsigned char` data as `char`).
* every codec takes its C++ out-parameter `out` explicitly and returns the
  pair (value of `out` after the call, return status), so that claims about
  outputs being left unmodified are directly expressible.
* a `Ret.oob` status marks a read past the end of the input buffer
  (undefined behavior in C++); the embedding makes those reads explicit.
-/

namespace NativePg

/-- Error codes: the `client_errc` taxonomy of the library plus the two
`std::errc` values that `std::from_chars` produces, which the parsers route
through `std::make_error_code`. -/
inductive Errc where
  | protocolValueError
  | extraBytes
  | unexpectedNull
  | incompatibleFieldType
  | fieldNotFound
  | incompatibleResponseType
  | stepSkipped
  | execServerError
  | invalidArgument
  | resultOutOfRange
  deriving DecidableEq

/-- Return status of a codec call: success, an `error_code`, or an
out-of-bounds buffer read. -/
inductive Ret where
  | ok
  | err (e : Errc)
  | oob
  deriving DecidableEq

/-- Outcome of a `std::from_chars` call. -/
inductive FCRes where
  | ok (v : Int)
  | invalid
  | outOfRange
  deriving DecidableEq

/-- Result of a `std::from_chars` call: outcome plus `ptr - first`. -/
structure FCOut where
  res : FCRes
  consumed : Nat
  deriving DecidableEq

/-- Decimal value of a digit string. -/
def digitsVal (ds : List Char) : Nat :=
  ds.foldl (fun a c => a * 10 + (c.toNat - 48)) 0

/-- Digit-scanning core of `std::from_chars`. -/
def fcCore (neg : Bool) (signLen : Nat) (rest : List Char) (lo hi : Int) : FCOut :=
  let ds := rest.takeWhile Char.isDigit
  if ds.isEmpty then ⟨FCRes.invalid, 0⟩
  else
    let v : Int := if neg then -(digitsVal ds : Int) else (digitsVal ds : Int)
    if lo ≤ v ∧ v ≤ hi then ⟨FCRes.ok v, signLen + ds.length⟩
    else ⟨FCRes.outOfRange, signLen + ds.length⟩

/-- Model of `std::from_chars(first, last, value)` for a signed integer type
with range `[lo, hi]` applied to the window `s = [first, last)`: an optional
leading minus sign followed by one or more decimal digits.  With no digits
the outcome is `invalid` and nothing is consumed; on a range failure all
matched characters are still consumed.  `std::from_chars` writes `value`
only on success. -/
def fromChars (s : List Char) (lo hi : Int) : FCOut :=
  match s with
  | '-' :: rest => fcCore true 1 rest lo hi
  | _ => fcCore false 0 s lo hi

/-- Error-propagation step shared by all parsers: the C++ pattern
`if (err.ec != std::errc {}) return std::make_error_code(err.ec);`
followed by the continuation on the parsed value. -/
def fcStep {α : Type} (fc : FCOut) (out : α) (k : Int → α × Ret) : α × Ret :=
  match fc.res with
  | FCRes.invalid => (out, Ret.err Errc.invalidArgument)
  | FCRes.outOfRange => (out, Ret.err Errc.resultOutOfRange)
  | FCRes.ok v => k v

def cIntMin : Int := -2147483648

def cIntMax : Int := 2147483647

def int16Min : Int := -32768

def int16Max : Int := 32767

def int32Min : Int := cIntMin

def int32Max : Int := cIntMax

def int64Min : Int := -9223372036854775808

def int64Max : Int := 9223372036854775807

/-- Days from 1970-01-01 to the civil date `y-m-d`, i.e. the value of
`std::chrono::sys_days{std::chrono::year_month_day{y, m, d}}` counted in
days (the Hinnant days-from-civil algorithm used by the standard library).
`Int.tdiv` is C++ integer division (truncation toward zero).  For fields
outside the civil ranges the C++ value is unspecified; the model extends the
formula arithmetically and no theorem relies on it there. -/
def daysFromCivil (y m d : Int) : Int :=
  let y2 := if m ≤ 2 then y - 1 else y
  let era := Int.tdiv (if 0 ≤ y2 then y2 else y2 - 399) 400
  let yoe := y2 - era * 400
  let doy := Int.tdiv (153 * (m + (if 2 < m then -3 else 9)) + 2) 5 + d - 1
  let doe := yoe * 365 + Int.tdiv yoe 4 - Int.tdiv yoe 100 + doy
  era * 146097 + doe - 719468

/-- Embedding of `nativepg::types::parse_text_date` (datetime.hpp): the input
must be exactly 10 bytes; the year / month / day are parsed from the fixed
windows `[0,4)`, `[5,7)`, `[8,10)` with `-` separators checked at indices 4
and 7 (the cursor advances by the window width, not by the characters
consumed).  No BC / infinity handling and no calendar-validity check; `out`
holds days since 1970-01-01 and is returned unchanged on failure. -/
def parse_text_date (from_ : List Char) (out : Int) : Int × Ret :=
  if from_.length ≠ 10 then (out, Ret.err Errc.protocolValueError) else
  fcStep (fromChars (from_.take 4) cIntMin cIntMax) out (fun year =>
    if from_.get? 4 ≠ some '-' then (out, Ret.err Errc.protocolValueError) else
    fcStep (fromChars ((from_.drop 5).take 2) cIntMin cIntMax) out (fun month =>
      if from_.get? 7 ≠ some '-' then (out, Ret.err Errc.protocolValueError) else
      fcStep (fromChars ((from_.drop 8).take 2) cIntMin cIntMax) out (fun day =>
        (daysFromCivil year month day, Ret.ok))))

/-- 2000-01-01 in days since 1970-01-01 (the PostgreSQL epoch). -/
def pgEpochDays : Int := 10957

/-- 2000-01-01 00:00:00 in microseconds since 1970-01-01. -/
def pgEpochMicros : Int := 946684800000000

/-- Big-endian unsigned value of a byte list (entries in `[0, 255]`). -/
def beNat (bytes : List Nat) : Nat :=
  bytes.foldl (fun a b => a * 256 + b) 0

/-- `boost::endian::endian_load<intN_t, w, order::big>`: two's-complement
signed value of the first `w` bytes. -/
def loadBE (bytes : List Nat) (w : Nat) : Int :=
  let u := beNat (bytes.take w)
  if u < 2 ^ (8 * w - 1) then (u : Int) else (u : Int) - 2 ^ (8 * w)

/-- Embedding of `nativepg::types::parse_binary_date` (datetime.hpp):
exactly 4 bytes, big-endian signed day count since 2000-01-01. -/
def parse_binary_date (from_ : List Nat) (out : Int) : Int × Ret :=
  if from_.length ≠ 4 then (out, Ret.err Errc.protocolValueError)
  else (pgEpochDays + loadBE from_ 4, Ret.ok)

/-- Scaling of the fractional-seconds value in `parse_text_time`: with `n`
characters consumed, fewer than 6 multiplies by 10 per missing digit and
more than 6 divides by 10 per excess digit (C++ `int` division, truncation
toward zero). -/
def scaleFraction (fraction : Int) (n : Nat) : Int :=
  if 6 < n then (List.range (n - 6)).foldl (fun a _ => Int.tdiv a 10) fraction
  else fraction * ((10 : Int) ^ (6 - n))

/-- Embedding of `nativepg::types::parse_text_time` (datetime.hpp):
`HH:MM:SS` parsed by free-width `from_chars` runs separated by checked `:`
bytes, then an optional `.fraction`.  The source has no range checks on
hours / minutes / seconds, and trailing bytes after the seconds field that
do not start with a dot are silently ignored.  Result in microseconds. -/
def parse_text_time (from_ : List Char) (out : Int) : Int × Ret :=
  if from_.isEmpty then (out, Ret.err Errc.protocolValueError) else
  let fcH := fromChars from_ cIntMin cIntMax
  fcStep fcH out (fun hours =>
    let p1 := fcH.consumed
    if from_.get? p1 ≠ some ':' then (out, Ret.err Errc.protocolValueError) else
    let fcM := fromChars (from_.drop (p1 + 1)) cIntMin cIntMax
    fcStep fcM out (fun minutes =>
      let p2 := p1 + 1 + fcM.consumed
      if from_.get? p2 ≠ some ':' then (out, Ret.err Errc.protocolValueError) else
      let fcS := fromChars (from_.drop (p2 + 1)) cIntMin cIntMax
      fcStep fcS out (fun seconds =>
        let p3 := p2 + 1 + fcS.consumed
        let base := hours * 3600000000 + minutes * 60000000 + seconds * 1000000
        if from_.get? p3 = some '.' then
          let fcF := fromChars (from_.drop (p3 + 1)) cIntMin cIntMax
          fcStep fcF out (fun fraction =>
            (base + scaleFraction fraction fcF.consumed, Ret.ok))
        else (base, Ret.ok))))

/-- Embedding of `nativepg::types::parse_binary_time` (datetime.hpp): the
source performs NO length check and unconditionally loads eight big-endian
bytes from `from.data()`.  With fewer than eight bytes available that load
reads past the end of the buffer; with more, the trailing bytes are silently
ignored and the call succeeds. -/
def parse_binary_time (from_ : List Nat) (out : Int) : Int × Ret :=
  if from_.length < 8 then (out, Ret.oob)
  else (loadBE from_ 8, Ret.ok)

/-- `nativepg::types::pg_timetz`: microseconds since midnight plus a UTC
offset in seconds. -/
structure TimeTz where
  timeSinceMidnight : Int
  utcOffset : Int
  deriving DecidableEq

/-- Index of the first occurrence of `c` in `s` (`std::memchr`), and likewise
the index returned by `std::find` over a name table. -/
def firstIdx {α : Type} [DecidableEq α] (s : List α) (c : α) : Option Nat :=
  match s with
  | [] => none
  | a :: rest => if a = c then some 0 else (firstIdx rest c).map (fun i => i + 1)

/-- Does `std::from_chars(p, p + 2, v)` read past the end of the buffer?
The scan looks at `p[0]` and, after a digit or a minus sign, at `p[1]`;
with at most one byte left in the buffer the access past it is out of
bounds. -/
def win2Oob (s : List Char) (pos : Nat) : Bool :=
  if pos + 2 ≤ s.length then false
  else
    match s.drop pos with
    | [c] => c.isDigit || c = '-'
    | _ => true

/-- Offset-suffix step of `parse_text_timetz` (datetime.hpp), the code from
the `Parse UTC offset` comment on: `pos` is the current index, `us` the
already-accumulated fraction, `signIdx` the position of the first `+` or `-`
found by the initial scan.  The offset is `±HH` optionally followed by
`:MM`; the sign factor comes from the scanned `*sign` character.  The fixed
two-byte `from_chars` windows can overrun the buffer (`Ret.oob`). -/
def timetzOffset (from_ : List Char) (signIdx : Option Nat) (pos : Nat)
    (hours minutes seconds us : Int) (out : TimeTz) : TimeTz × Ret :=
  let len := from_.length
  let base := hours * 3600000000 + minutes * 60000000 + seconds * 1000000 + us
  if pos < len ∧ signIdx.isSome then
    if from_.get? pos ≠ some '+' ∧ from_.get? pos ≠ some '-' then
      (out, Ret.err Errc.protocolValueError)
    else
      let signFactor : Int := if (signIdx.bind from_.get?) = some '+' then 1 else -1
      let p := pos + 1
      if win2Oob from_ p then (out, Ret.oob) else
      fcStep (fromChars ((from_.drop p).take 2) cIntMin cIntMax) out (fun offH =>
        let p2 := p + 2
        if p2 < len then
          if from_.get? p2 ≠ some ':' then (out, Ret.err Errc.protocolValueError)
          else if win2Oob from_ (p2 + 1) then (out, Ret.oob)
          else
            fcStep (fromChars ((from_.drop (p2 + 1)).take 2) cIntMin cIntMax) out (fun offM =>
              (⟨base, (offH * 3600 + offM * 60) * signFactor⟩, Ret.ok))
        else (⟨base, offH * 3600 * signFactor⟩, Ret.ok))
  else (⟨base, 0⟩, Ret.ok)

/-- Embedding of `nativepg::types::parse_text_timetz` (datetime.hpp).  The
input must be at least 11 bytes; `dot` / `sign` are `memchr` scans over the
whole input for the first `.` and the first `+` (falling back to the first
`-`); HH / MM / SS come from fixed two-byte windows with `:` checks at
indices 2 and 5.  The optional fraction at index 8 is scanned up to the sign
position or -- when there is no sign -- up out one byte PAST the end of the
buffer (an out-of-bounds read when every remaining byte is a digit), and its
digit count `n` is the window width, not the digits consumed.  The scale is
`1000000` divided by ten `n` times.  No range checks. -/
def parse_text_timetz (from_ : List Char) (out : TimeTz) : TimeTz × Ret :=
  if from_.length < 11 then (out, Ret.err Errc.protocolValueError) else
  let dotIdx := firstIdx from_ '.'
  let signIdx :=
    match firstIdx from_ '+' with
    | some i => some i
    | none => firstIdx from_ '-'
  fcStep (fromChars (from_.take 2) cIntMin cIntMax) out (fun hours =>
    if from_.get? 2 ≠ some ':' then (out, Ret.err Errc.protocolValueError) else
    fcStep (fromChars ((from_.drop 3).take 2) cIntMin cIntMax) out (fun minutes =>
      if from_.get? 5 ≠ some ':' then (out, Ret.err Errc.protocolValueError) else
      fcStep (fromChars ((from_.drop 6).take 2) cIntMin cIntMax) out (fun seconds =>
        if dotIdx.isSome ∧ from_.get? 8 = some '.' then
          match signIdx with
          | some si =>
            fcStep (fromChars ((from_.drop 9).take (si - 9)) cIntMin cIntMax) out
              (fun fraction =>
                let n := si - 9
                let scale := (List.range n).foldl (fun a _ => a / 10) 1000000
                timetzOffset from_ signIdx (9 + n) hours minutes seconds
                  (fraction * (scale : Int)) out)
          | none =>
            if (from_.drop 9).all Char.isDigit then (out, Ret.oob)
            else
              fcStep (fromChars (from_.drop 9) cIntMin cIntMax) out (fun fraction =>
                let n := from_.length + 1 - 9
                let scale := (List.range n).foldl (fun a _ => a / 10) 1000000
                timetzOffset from_ signIdx (9 + n) hours minutes seconds
                  (fraction * (scale : Int)) out)
        else timetzOffset from_ signIdx 8 hours minutes seconds 0 out)))

/-- Embedding of `nativepg::types::parse_binary_timetz` (datetime.hpp):
exactly 12 bytes; microseconds from the first 8, and the UTC offset is the
NEGATION of the 4-byte seconds-west-of-UTC field. -/
def parse_binary_timetz (from_ : List Nat) (out : TimeTz) : TimeTz × Ret :=
  if from_.length ≠ 12 then (out, Ret.err Errc.protocolValueError)
  else (⟨loadBE from_ 8, -(loadBE (from_.drop 8) 4)⟩, Ret.ok)

/-- Embedding of `nativepg::types::parse_binary_timestamp` (datetime.hpp):
exactly 8 bytes, big-endian signed microseconds since 2000-01-01. -/
def parse_binary_timestamp (from_ : List Nat) (out : Int) : Int × Ret :=
  if from_.length ≠ 8 then (out, Ret.err Errc.protocolValueError)
  else (pgEpochMicros + loadBE from_ 8, Ret.ok)

/-- Embedding of `nativepg::types::parse_binary_timestamptz` (datetime.hpp):
identical to the timestamp layout. -/
def parse_binary_timestamptz (from_ : List Nat) (out : Int) : Int × Ret :=
  if from_.length ≠ 8 then (out, Ret.err Errc.protocolValueError)
  else (pgEpochMicros + loadBE from_ 8, Ret.ok)

/-- Embedding of `nativepg::types::parse_text_timestamptz` (datetime.hpp):
at least 19 bytes; the date is parsed from the first 10 bytes and the rest
(from index 11 on) as a `timetz`.  The stored value is
`date + time_since_midnight` in microseconds -- the parsed UTC offset of the
`timetz` is NOT applied. -/
def parse_text_timestamptz (from_ : List Char) (out : Int) : Int × Ret :=
  if from_.length < 19 then (out, Ret.err Errc.protocolValueError) else
  match parse_text_date (from_.take 10) 0 with
  | (_, Ret.err e) => (out, Ret.err e)
  | (_, Ret.oob) => (out, Ret.oob)
  | (dateDays, Ret.ok) =>
    match parse_text_timetz (from_.drop 11) ⟨0, 0⟩ with
    | (_, Ret.err e) => (out, Ret.err e)
    | (_, Ret.oob) => (out, Ret.oob)
    | (tz, Ret.ok) => (dateDays * 86400000000 + tz.timeSinceMidnight, Ret.ok)

/-- `nativepg::types::pg_interval`. -/
structure Interval where
  months : Int
  days : Int
  time : Int
  deriving DecidableEq

/-- Embedding of `nativepg::types::parse_binary_interval` (datetime.hpp):
exactly 16 bytes: 8-byte microseconds, 4-byte days, 4-byte months. -/
def parse_binary_interval (from_ : List Nat) (out : Interval) : Interval × Ret :=
  if from_.length ≠ 16 then (out, Ret.err Errc.protocolValueError)
  else (⟨loadBE (from_.drop 12) 4, loadBE (from_.drop 8) 4, loadBE from_ 8⟩, Ret.ok)

/-- Embedding of the `parse_binary_int<T>` template (response.cpp) at byte
width `w = sizeof(T)`: exact-width check, big-endian signed load. -/
def parse_binary_int (w : Nat) (from_ : List Nat) (out : Int) : Int × Ret :=
  if from_.length ≠ w then (out, Ret.err Errc.protocolValueError)
  else (loadBE from_ w, Ret.ok)

example : parse_text_date "1977-06-21".data 0 = (2728, Ret.ok) := by decide

example : parse_binary_date [0xFF, 0xFF, 0xDF, 0xDB] 0 = (2728, Ret.ok) := by decide

example : parse_text_time "21:06:19".data 0 = (75979000000, Ret.ok) := by decide

example :
    parse_binary_time [0x00, 0x00, 0x00, 0x11, 0xB0, 0xB3, 0x88, 0xC0] 0 =
      (75979000000, Ret.ok) := by decide

example : parse_text_timetz "21:06:19+07:00".data ⟨0, 0⟩ = (⟨75979000000, 25200⟩, Ret.ok) := by
  decide

example :
    parse_binary_timetz
        [0x00, 0x00, 0x00, 0x0A, 0x89, 0xE9, 0x36, 0x56, 0xFF, 0xFF, 0xB9, 0xB0] ⟨0, 0⟩ =
      (⟨45263435350, 18000⟩, Ret.ok) := by decide

example :
    parse_binary_interval
        [0, 0, 0, 0, 0, 0, 0, 1, 0, 0, 0, 1, 0, 0, 0, 1] ⟨0, 0, 0⟩ =
      (⟨1, 1, 1⟩, Ret.ok) := by decide

/-- `protocol::format_code`. -/
inductive FmtCode where
  | text
  | binary
  deriving DecidableEq

/-- `protocol::field_description`: one column of server-side row metadata. -/
structure FieldDescription where
  name : String
  tableOid : Int
  columnAttribute : Int
  typeOid : Int
  typeLength : Int
  typeModifier : Int
  fmtCode : FmtCode
  deriving DecidableEq

def int2Oid : Int := 21

def int4Oid : Int := 23

def int8Oid : Int := 20

/-- Bytes of a payload reinterpreted as characters
(`reinterpret_cast<const char*>(from.data())`); entries are in `[0, 255]`. -/
def bytesToChars (data : List Nat) : List Char :=
  data.map (fun b => Char.ofNat b)

/-- Embedding of the `parse_text_int<T>` template (response.cpp) for a
target type with range `[lo, hi]`: `from_chars` over the whole payload, then
an `extra_bytes` check.  Note that on the `extra_bytes` path `from_chars`
has already written the parsed value into `out`. -/
def parse_text_int (from_ : List Char) (lo hi : Int) (out : Int) : Int × Ret :=
  let fc := fromChars from_ lo hi
  match fc.res with
  | FCRes.invalid => (out, Ret.err Errc.invalidArgument)
  | FCRes.outOfRange => (out, Ret.err Errc.resultOutOfRange)
  | FCRes.ok v =>
    if fc.consumed ≠ from_.length then (v, Ret.err Errc.extraBytes)
    else (v, Ret.ok)

/-- Embedding of `detail::field_parse<std::int16_t>::call` (response.cpp):
NULL check, then text or binary int16 parse on the format code.  The
`BOOST_ASSERT(desc.type_oid == int2_oid)` is a no-op in release builds. -/
def field_parse_int16 (data? : Option (List Nat)) (desc : FieldDescription) (out : Int) :
    Int × Ret :=
  match data? with
  | none => (out, Ret.err Errc.unexpectedNull)
  | some data =>
    if desc.fmtCode = FmtCode.text then parse_text_int (bytesToChars data) int16Min int16Max out
    else parse_binary_int 2 data out

/-- Embedding of `detail::field_parse<std::int32_t>::call` (response.cpp):
dispatch on the column `type_oid`.  OID 21 parses a 16-bit value into a
fresh zero-initialized temporary which is then assigned to `out` even when
the parse failed; OID 23 parses a 32-bit value directly into `out`.  The
`default: BOOST_ASSERT(false); return {};` arm is a successful no-op in
release builds. -/
def field_parse_int32 (data? : Option (List Nat)) (desc : FieldDescription) (out : Int) :
    Int × Ret :=
  match data? with
  | none => (out, Ret.err Errc.unexpectedNull)
  | some data =>
    if desc.typeOid = int2Oid then
      if desc.fmtCode = FmtCode.text then parse_text_int (bytesToChars data) int16Min int16Max 0
      else parse_binary_int 2 data 0
    else if desc.typeOid = int4Oid then
      if desc.fmtCode = FmtCode.text then parse_text_int (bytesToChars data) int32Min int32Max out
      else parse_binary_int 4 data out
    else (out, Ret.ok)

/-- Embedding of `detail::field_parse<std::int64_t>::call` (response.cpp):
dispatch on the column `type_oid` with OID 21 parsed as int16 and OID 23 as
int32, each widened through a zero-initialized temporary; OID 20 parses a
64-bit value directly into `out`. -/
def field_parse_int64 (data? : Option (List Nat)) (desc : FieldDescription) (out : Int) :
    Int × Ret :=
  match data? with
  | none => (out, Ret.err Errc.unexpectedNull)
  | some data =>
    if desc.typeOid = int2Oid then
      if desc.fmtCode = FmtCode.text then parse_text_int (bytesToChars data) int16Min int16Max 0
      else parse_binary_int 2 data 0
    else if desc.typeOid = int4Oid then
      if desc.fmtCode = FmtCode.text then parse_text_int (bytesToChars data) int32Min int32Max 0
      else parse_binary_int 4 data 0
    else if desc.typeOid = int8Oid then
      if desc.fmtCode = FmtCode.text then parse_text_int (bytesToChars data) int64Min int64Max out
      else parse_binary_int 8 data out
    else (out, Ret.ok)

/-- `detail::pos_map_entry`; `dbIndex = none` models the sentinel
`invalid_pos = static_cast<std::size_t>(-1)`. -/
structure PosMapEntry where
  dbIndex : Option Nat
  descr : FieldDescription
  deriving DecidableEq

/-- A value-initialized `protocol::field_description` (the `{}` in
`{invalid_pos, {}}`). -/
def emptyFieldDescription : FieldDescription :=
  ⟨"", 0, 0, 0, 0, 0, FmtCode.text⟩

def invalidEntry : PosMapEntry := ⟨none, emptyFieldDescription⟩

/-- The field walk of `detail::compute_pos_map` (response.cpp): for each DB
field in order, `std::find` the FIRST name-table slot with the same name
(case-sensitive) and overwrite it with `{db_index, field}`. -/
def posMapFill (names : List String) : List FieldDescription → Nat → List PosMapEntry →
    List PosMapEntry
  | [], _, acc => acc
  | f :: rest, i, acc =>
    posMapFill names rest (i + 1)
      (match firstIdx names f.name with
       | some k => acc.set k ⟨some i, f⟩
       | none => acc)

/-- Embedding of `detail::compute_pos_map` (response.cpp): initialize every
entry to `{invalid_pos, {}}`, walk the DB fields, then fail with
`field_not_found` if any entry is still invalid. -/
def compute_pos_map (meta : List FieldDescription) (names : List String) :
    List PosMapEntry × Ret :=
  let filled := posMapFill names meta 0 (names.map (fun _ => invalidEntry))
  if filled.any (fun e => e.dbIndex.isNone) then (filled, Ret.err Errc.fieldNotFound)
  else (filled, Ret.ok)

/-- `request_message_type` (request.hpp). -/
inductive Tag where
  | bind
  | close
  | describe
  | execute
  | flush
  | query
  | sync
  | parseMsg
  deriving DecidableEq

/-- Outcome of `resultset_setup`: a `handler_setup_result` holding either an
end offset or an error code, or an out-of-bounds read of the tag vector. -/
inductive SetupRes where
  | ok (offset : Nat)
  | err (e : Errc)
  | oob
  deriving DecidableEq

/-- The `while (it != msgs.end() && (*it == sync || *it == flush)) ++it;`
skip loops of `resultset_setup`: number of leading sync / flush tags. -/
def countLeadingSF : List Tag → Nat
  | [] => 0
  | t :: rest => if t = Tag.sync ∨ t = Tag.flush then countLeadingSF rest + 1 else 0

/-- Outcome of the extended-query scan loop of `resultset_setup`:
either the number of tags consumed plus whether Execute was found, or an
early `incompatible_response_type` return. -/
inductive ExtLoopRes where
  | out (consumed : Nat) (executeFound : Bool)
  | fail (e : Errc)
  deriving DecidableEq

/-- The `for (; it != msgs.end() && !execute_found; ++it)` loop of
`resultset_setup` (response.cpp): sync / flush / parse / bind tags are all
skipped (`continue`), a second Describe or an Execute without a preceding
Describe is `incompatible_response_type`, any other tag hits the `default`
arm, and the loop stops one past the Execute tag. -/
def extLoop : List Tag → Bool → ExtLoopRes
  | [], _ => ExtLoopRes.out 0 false
  | t :: rest, describeFound =>
    if t = Tag.sync ∨ t = Tag.flush ∨ t = Tag.parseMsg ∨ t = Tag.bind then
      match extLoop rest describeFound with
      | ExtLoopRes.out n ef => ExtLoopRes.out (n + 1) ef
      | ExtLoopRes.fail e => ExtLoopRes.fail e
    else if t = Tag.describe then
      if describeFound then ExtLoopRes.fail Errc.incompatibleResponseType
      else
        match extLoop rest true with
        | ExtLoopRes.out n ef => ExtLoopRes.out (n + 1) ef
        | ExtLoopRes.fail e => ExtLoopRes.fail e
    else if t = Tag.execute then
      if describeFound then ExtLoopRes.out 1 true
      else ExtLoopRes.fail Errc.incompatibleResponseType
    else ExtLoopRes.fail Errc.incompatibleResponseType

/-- Embedding of `detail::resultset_setup` (response.cpp) on the request tag
vector `msgs` and a start offset.  After skipping leading sync / flush tags
the source dereferences `*it` WITHOUT checking `it != msgs.end()` before
comparing it against `query`; when the remaining segment is empty or
consists only of sync / flush tags this is a read one past the end of the
tag vector, surfaced as `SetupRes.oob`. -/
def resultset_setup (msgs : List Tag) (offset : Nat) : SetupRes :=
  let seg := msgs.drop offset
  let i0 := countLeadingSF seg
  match seg.drop i0 with
  | [] => SetupRes.oob
  | t :: rest =>
    if t = Tag.query then SetupRes.ok (offset + i0 + 1)
    else
      match extLoop (t :: rest) false with
      | ExtLoopRes.fail e => SetupRes.err e
      | ExtLoopRes.out n ef =>
        let j := i0 + n
        let j2 := j + countLeadingSF (seg.drop j)
        if ef then SetupRes.ok (offset + j2) else SetupRes.err Errc.incompatibleResponseType

/-- `extended_error`: an error code (`none` is the empty, falsy
`error_code{}`) plus a diagnostic. -/
structure ExtendedError where
  code : Option Errc
  diag : String
  deriving DecidableEq

/-- The scan loop of `response::result()`: first handler result whose code
is non-empty. -/
def firstError : List ExtendedError → Option ExtendedError
  | [] => none
  | r :: rest => if r.code.isSome then some r else firstError rest

/-- Embedding of `response::result()` (response.hpp): scan the handler
results in order and return the first whose `code` is truthy; if none is,
return the first handler result (`static_assert(N > 0)` guarantees the list
is nonempty; on an empty list the model returns the default
`extended_error`). -/
def response_result (results : List ExtendedError) : ExtendedError :=
  match firstError results with
  | some r => r
  | none => results.headD ⟨none, ""⟩

/-- `request`: the serialized byte buffer and the parallel tag vector. -/
structure Request where
  buffer : List Nat
  tags : List Tag
  deriving DecidableEq

/-- 32-bit big-endian bytes of a (representable) length. -/
def be32 (n : Nat) : List Nat :=
  [n / 16777216 % 256, n / 65536 % 256, n / 256 % 256, n % 256]

/-- Modelled from the spec: the per-message `protocol::serialize`
implementations are not under src/ (request.hpp and protocol/parse.hpp only
declare them).  Per sections 4.1 / 4.2 / 6 of the spec a frame is a one-byte
message type followed by a 32-bit big-endian length covering the length
field itself, then the payload; serialization fails when the frame length is
not representable in that field, and per the section 4.3 contract a failed
serialization leaves the output buffer unmodified (the model returns the
frame to append instead of mutating, which encodes exactly that). -/
def serializeMsg (msgType : Nat) (payload : List Nat) : Except Errc (List Nat) :=
  if 2147483647 < payload.length + 4 then Except.error Errc.protocolValueError
  else Except.ok (msgType :: (be32 (payload.length + 4) ++ payload))

/-- Embedding of `request::add_advanced_impl` (request.hpp):
`types_.reserve(types_.size() + 1)` changes capacity only, then
`check(protocol::serialize(value, buffer_))` throws the error code on
failure -- skipping the tag push -- and finally the tag is pushed.  The
returned option is the thrown error, if any. -/
def add_advanced_impl (req : Request) (msgType : Nat) (payload : List Nat) (t : Tag) :
    Request × Option Errc :=
  match serializeMsg msgType payload with
  | Except.error e => (req, some e)
  | Except.ok frame => (⟨req.buffer ++ frame, req.tags ++ [t]⟩, none)

example :
    resultset_setup [Tag.parseMsg, Tag.bind, Tag.describe, Tag.execute, Tag.sync] 0 =
      SetupRes.ok 5 := by decide

example : resultset_setup [Tag.query] 0 = SetupRes.ok 1 := by decide

example :
    response_result
        [⟨none, ""⟩, ⟨some Errc.fieldNotFound, "error"⟩,
         ⟨some Errc.incompatibleFieldType, "other"⟩, ⟨none, ""⟩] =
      ⟨some Errc.fieldNotFound, "error"⟩ := by decide

/-!  Claim theorems. -/

/-- C1: the claim states that EVERY binary field codec rejects a payload
whose length differs from its declared size with `protocol_value_error`,
leaving the output unmodified.  The code violates this for the binary time
codec: `parse_binary_time` has no length check at all.  A 9-byte payload is
"parsed" successfully from its first eight bytes, overwriting the output, and
a 4-byte payload makes the unconditional 8-byte big-endian load read past
the end of the buffer.  All the sibling binary codecs (date 4, timetz 12,
timestamp / timestamptz 8, interval 16, integers 2/4/8) do perform the
strict check and leave the output untouched. -/
theorem c1_binary_time_missing_length_check :
    parse_binary_time [0, 0, 0, 0, 0, 0, 0, 0, 0] 77 = (0, Ret.ok) ∧
    parse_binary_time [0, 0, 0, 0] 77 = (77, Ret.oob) ∧
    parse_binary_date [0, 0, 0] 77 = (77, Ret.err Errc.protocolValueError) ∧
    parse_binary_date [0, 0, 0, 0, 0] 77 = (77, Ret.err Errc.protocolValueError) ∧
    parse_binary_timetz [0, 0, 0, 0] ⟨5, 5⟩ = (⟨5, 5⟩, Ret.err Errc.protocolValueError) ∧
    parse_binary_timestamp [0, 0, 0, 0] 77 = (77, Ret.err Errc.protocolValueError) ∧
    parse_binary_timestamptz [0] 77 = (77, Ret.err Errc.protocolValueError) ∧
    parse_binary_interval [0, 0, 0, 0] ⟨1, 2, 3⟩ = (⟨1, 2, 3⟩, Ret.err Errc.protocolValueError) ∧
    parse_binary_int 2 [0, 0, 0] 77 = (77, Ret.err Errc.protocolValueError) ∧
    parse_binary_int 4 [0, 0] 77 = (77, Ret.err Errc.protocolValueError) ∧
    parse_binary_int 8 [0, 0] 77 = (77, Ret.err Errc.protocolValueError) := by
  decide

/-- C2: the claim states that `parse_text_timestamptz` stores the UTC
instant `local_time - offset`.  The code parses the timezone suffix through
`parse_text_timetz` but then stores `date + time_since_midnight` WITHOUT
subtracting the offset: for `2026-02-08 20:03:00+05:00` it stores the local
instant 1770580980000000 us (2026-02-08T20:03:00) instead of the UTC instant
1770580980000000 - 5 * 3600 * 10^6 = 1770562980000000 us required by the
claim. -/
theorem c2_text_timestamptz_ignores_offset :
    parse_text_timestamptz "2026-02-08 20:03:00+05:00".data 77 = (1770580980000000, Ret.ok) ∧
    (1770580980000000 : Int) - 5 * 3600 * 1000000 = 1770562980000000 ∧
    (1770562980000000 : Int) < 1770580980000000 := by
  refine ⟨by decide, by decide, by decide⟩

/-- C3 counterexample: the claim states that `parse_text_date` accepts the
literal `infinity` and rejects invalid calendar dates such as `2023-02-30`.
The code rejects `infinity` (its length is not 10) and accepts `2023-02-30`
(there is no calendar-validity check). -/
theorem c3_text_date_counterexample :
    parse_text_date "infinity".data 0 = (0, Ret.err Errc.protocolValueError) ∧
    (parse_text_date "2023-02-30".data 0).2 = Ret.ok ∧
    parse_text_date "1977-06-21 BC".data 0 = (0, Ret.err Errc.protocolValueError) := by
  decide

/-- C4 counterexample: the claim states that `parse_text_time` returns an
error whenever `HH <= 24` (with equality only for 24:00:00) or `MM, SS <= 59`
is violated.  The code has no such checks: `25:61:61` parses successfully to
`25 h + 61 min + 61 s`. -/
theorem c4_text_time_counterexample :
    parse_text_time "25:61:61".data 0 = (93721000000, Ret.ok) := by
  decide

/-- `takeWhile` over an all-satisfying prefix followed by a non-satisfying
(or empty) suffix returns exactly the prefix. -/
theorem takeWhile_all_append (p : Char → Bool) (l r : List Char)
    (hl : ∀ c ∈ l, p c = true)
    (hr : ∀ c cs, r = c :: cs → p c = false) :
    (l ++ r).takeWhile p = l := by
  induction l with
  | nil =>
    cases r with
    | nil => rfl
    | cons c cs => simp [List.takeWhile_cons, hr c cs rfl]
  | cons a t ih =>
    have ha : p a = true := hl a (by simp)
    simp only [List.cons_append, List.takeWhile_cons, ha, if_true, List.cons.injEq, true_and]
    exact ih (fun c hc => hl c (by simp [hc]))

/-- Every nonnegative value is at least `INT_MIN`. -/
theorem cIntMin_le_cast (m : Nat) : cIntMin ≤ (m : Int) := by
  have h0 : (0 : Int) ≤ (m : Int) := Int.ofNat_nonneg m
  have h1 : cIntMin ≤ 0 := by decide
  omega

/-- `std::from_chars` on a nonempty digit run followed by a non-digit byte
(or by nothing) consumes exactly the run and returns its decimal value when
that value is within range. -/
theorem fromChars_digit_run (ds rest : List Char) (lo hi : Int)
    (hne : ds ≠ []) (hall : ∀ c ∈ ds, c.isDigit = true)
    (hstop : ∀ c cs, rest = c :: cs → c.isDigit = false)
    (hlo : lo ≤ (digitsVal ds : Int)) (hhi : (digitsVal ds : Int) ≤ hi) :
    fromChars (ds ++ rest) lo hi = ⟨FCRes.ok (digitsVal ds), ds.length⟩ := by
  rcases ds with _ | ⟨c0, cs0⟩
  · exact absurd rfl hne
  have hc0 : c0.isDigit = true := hall c0 (by simp)
  have hc0ne : c0 ≠ '-' := by
    intro he
    rw [he] at hc0
    exact absurd hc0 (by decide)
  unfold fromChars
  split
  next heq =>
    injection heq with h1 _
    exact absurd h1 hc0ne
  next =>
    unfold fcCore
    have htw : ((c0 :: cs0) ++ rest).takeWhile Char.isDigit = c0 :: cs0 :=
      takeWhile_all_append Char.isDigit (c0 :: cs0) rest hall hstop
    rw [htw]
    simp only [List.isEmpty_cons, Bool.false_eq_true, if_false]
    rw [if_pos ⟨hlo, hhi⟩, Nat.zero_add]

/-- Repeated C++ `int` division by ten of a nonnegative value is truncating
division by the corresponding power of ten. -/
theorem tdiv_fold (k m : Nat) :
    (List.range k).foldl (fun a _ => Int.tdiv a 10) (m : Int) =
      ((m / 10 ^ k : Nat) : Int) := by
  induction k with
  | zero => simp
  | succ n ih =>
    rw [List.range_succ, List.foldl_append, ih]
    show Int.tdiv ((m / 10 ^ n : Nat) : Int) 10 = ((m / 10 ^ (n + 1) : Nat) : Int)
    rw [show Int.tdiv ((m / 10 ^ n : Nat) : Int) 10 = ((m / 10 ^ n / 10 : Nat) : Int) from rfl]
    rw [Nat.div_div_eq_div_mul, ← pow_succ]

/-- Step chain of `parse_text_time` on an input decomposed as
`HH ++ ":" ++ MM ++ ":" ++ SS ++ tail` with nonempty in-range digit runs and
`tail` not starting with a digit: the three fields parse to their decimal
values and the call reduces to the fraction step on `tail`. -/
theorem parse_text_time_run (dh dm dsec tail : List Char) (out : Int)
    (h1 : dh ≠ []) (h2 : dm ≠ []) (h3 : dsec ≠ [])
    (a1 : ∀ c ∈ dh, c.isDigit = true) (a2 : ∀ c ∈ dm, c.isDigit = true)
    (a3 : ∀ c ∈ dsec, c.isDigit = true)
    (b1 : (digitsVal dh : Int) ≤ cIntMax) (b2 : (digitsVal dm : Int) ≤ cIntMax)
    (b3 : (digitsVal dsec : Int) ≤ cIntMax)
    (hstop : ∀ c cs, tail = c :: cs → c.isDigit = false) :
    parse_text_time (dh ++ (':' :: (dm ++ (':' :: (dsec ++ tail))))) out =
      (if tail.get? 0 = some '.' then
        fcStep (fromChars (tail.drop 1) cIntMin cIntMax) out (fun fraction =>
          ((digitsVal dh : Int) * 3600000000 + (digitsVal dm : Int) * 60000000 +
            (digitsVal dsec : Int) * 1000000 +
            scaleFraction fraction (fromChars (tail.drop 1) cIntMin cIntMax).consumed, Ret.ok))
      else
        ((digitsVal dh : Int) * 3600000000 + (digitsVal dm : Int) * 60000000 +
          (digitsVal dsec : Int) * 1000000, Ret.ok)) := by
  have hsne : (dh ++ (':' :: (dm ++ (':' :: (dsec ++ tail))))).isEmpty = false := by
    rcases dh with _ | ⟨c, t⟩
    · exact absurd rfl h1
    · rfl
  have hfH : fromChars (dh ++ (':' :: (dm ++ (':' :: (dsec ++ tail))))) cIntMin cIntMax =
      ⟨FCRes.ok (digitsVal dh), dh.length⟩ :=
    fromChars_digit_run dh (':' :: (dm ++ (':' :: (dsec ++ tail)))) cIntMin cIntMax h1 a1
      (by intro c cs hc; injection hc with hc1 _; rw [← hc1]; decide) (cIntMin_le_cast _) b1
  have hfM : fromChars (dm ++ (':' :: (dsec ++ tail))) cIntMin cIntMax =
      ⟨FCRes.ok (digitsVal dm), dm.length⟩ :=
    fromChars_digit_run dm (':' :: (dsec ++ tail)) cIntMin cIntMax h2 a2
      (by intro c cs hc; injection hc with hc1 _; rw [← hc1]; decide) (cIntMin_le_cast _) b2
  have hfS : fromChars (dsec ++ tail) cIntMin cIntMax =
      ⟨FCRes.ok (digitsVal dsec), dsec.length⟩ :=
    fromChars_digit_run dsec tail cIntMin cIntMax h3 a3 hstop (cIntMin_le_cast _) b3
  have hd0 : (dh ++ (':' :: (dm ++ (':' :: (dsec ++ tail))))).drop dh.length =
      ':' :: (dm ++ (':' :: (dsec ++ tail))) := List.drop_left dh _
  have hd1 : (dh ++ (':' :: (dm ++ (':' :: (dsec ++ tail))))).drop (dh.length + 1) =
      dm ++ (':' :: (dsec ++ tail)) := by
    rw [← List.drop_drop, hd0]
    rfl
  have hd2 : (dh ++ (':' :: (dm ++ (':' :: (dsec ++ tail))))).drop
      (dh.length + 1 + dm.length) = ':' :: (dsec ++ tail) := by
    rw [← List.drop_drop, hd1]
    exact List.drop_left dm _
  have hd3 : (dh ++ (':' :: (dm ++ (':' :: (dsec ++ tail))))).drop
      (dh.length + 1 + dm.length + 1) = dsec ++ tail := by
    rw [← List.drop_drop, hd2]
    rfl
  have hd4 : (dh ++ (':' :: (dm ++ (':' :: (dsec ++ tail))))).drop
      (dh.length + 1 + dm.length + 1 + dsec.length) = tail := by
    rw [← List.drop_drop, hd3]
    exact List.drop_left dsec _
  have hd5 : (dh ++ (':' :: (dm ++ (':' :: (dsec ++ tail))))).drop
      (dh.length + 1 + dm.length + 1 + dsec.length + 1) = tail.drop 1 := by
    rw [← List.drop_drop, hd4]
  have hget : ∀ (n : Nat) (X : List Char),
      (dh ++ (':' :: (dm ++ (':' :: (dsec ++ tail))))).drop n = X →
      (dh ++ (':' :: (dm ++ (':' :: (dsec ++ tail))))).get? n = X.get? 0 := by
    intro n X h
    rw [← h, List.get?_drop, Nat.add_zero]
  have hg1 : (dh ++ (':' :: (dm ++ (':' :: (dsec ++ tail))))).get? dh.length = some ':' := by
    rw [hget _ _ hd0]
    rfl
  have hg2 : (dh ++ (':' :: (dm ++ (':' :: (dsec ++ tail))))).get?
      (dh.length + 1 + dm.length) = some ':' := by
    rw [hget _ _ hd2]
    rfl
  have hg3 : (dh ++ (':' :: (dm ++ (':' :: (dsec ++ tail))))).get?
      (dh.length + 1 + dm.length + 1 + dsec.length) = tail.get? 0 :=
    hget _ _ hd4
  unfold parse_text_time
  simp only [hsne, Bool.false_eq_true, if_false, hfH, fcStep, hd1, hfM, hd3, hfS, hd5,
    hg1, hg2, hg3]
  rw [if_neg (by simp), if_neg (by simp)]

/-- C4 as amended: `parse_text_time` performs no range validation of the
hours / minutes / seconds components (`24:00:01`, `12:60:00` and `25:61:61`
all succeed, and trailing bytes after the seconds that do not start with a
dot are silently ignored); for EVERY input of the shape `HH:MM:SS` built
from nonempty in-range digit runs the parse succeeds with
`HH` hours + `MM` minutes + `SS` seconds, and for every input
`HH:MM:SS.F` with a further nonempty digit run `F` of `n` digits it
additionally adds `F` scaled to microseconds: multiplied by `10 ^ (6 - n)`
when `n ≤ 6` (right-padding) and divided by `10 ^ (n - 6)` with truncation
when `n > 6`. -/
theorem c4_text_time_amended :
    (∀ (dh dm dsec : List Char) (out : Int),
        dh ≠ [] → dm ≠ [] → dsec ≠ [] →
        (∀ c ∈ dh, c.isDigit = true) → (∀ c ∈ dm, c.isDigit = true) →
        (∀ c ∈ dsec, c.isDigit = true) →
        (digitsVal dh : Int) ≤ cIntMax → (digitsVal dm : Int) ≤ cIntMax →
        (digitsVal dsec : Int) ≤ cIntMax →
        parse_text_time (dh ++ (':' :: (dm ++ (':' :: dsec)))) out =
          ((digitsVal dh : Int) * 3600000000 + (digitsVal dm : Int) * 60000000 +
            (digitsVal dsec : Int) * 1000000, Ret.ok)) ∧
    (∀ (dh dm dsec df : List Char) (out : Int),
        dh ≠ [] → dm ≠ [] → dsec ≠ [] → df ≠ [] →
        (∀ c ∈ dh, c.isDigit = true) → (∀ c ∈ dm, c.isDigit = true) →
        (∀ c ∈ dsec, c.isDigit = true) → (∀ c ∈ df, c.isDigit = true) →
        (digitsVal dh : Int) ≤ cIntMax → (digitsVal dm : Int) ≤ cIntMax →
        (digitsVal dsec : Int) ≤ cIntMax → (digitsVal df : Int) ≤ cIntMax →
        parse_text_time (dh ++ (':' :: (dm ++ (':' :: (dsec ++ ('.' :: df)))))) out =
          ((digitsVal dh : Int) * 3600000000 + (digitsVal dm : Int) * 60000000 +
            (digitsVal dsec : Int) * 1000000 +
            scaleFraction (digitsVal df) df.length, Ret.ok)) ∧
    (∀ (f : Int) (n : Nat), n ≤ 6 → scaleFraction f n = f * 10 ^ (6 - n)) ∧
    (∀ (m n : Nat), 6 < n → scaleFraction (m : Int) n = ((m / 10 ^ (n - 6) : Nat) : Int)) ∧
    parse_text_time "24:00:01".data 0 = (86401000000, Ret.ok) ∧
    parse_text_time "12:60:00".data 0 = (46800000000, Ret.ok) ∧
    parse_text_time "12:34:56xyz".data 0 = (45296000000, Ret.ok) ∧
    parse_text_time "12:34:56.5".data 0 = (45296500000, Ret.ok) := by
  refine ⟨?_, ?_, ?_, ?_, by decide, by decide, by decide, by decide⟩
  · intro dh dm dsec out h1 h2 h3 a1 a2 a3 b1 b2 b3
    have h := parse_text_time_run dh dm dsec [] out h1 h2 h3 a1 a2 a3 b1 b2 b3
      (by intro c cs hc; exact absurd hc (by simp))
    rw [List.append_nil] at h
    rw [h]
    rfl
  · intro dh dm dsec df out h1 h2 h3 h4 a1 a2 a3 a4 b1 b2 b3 b4
    have hfF : fromChars df cIntMin cIntMax = ⟨FCRes.ok (digitsVal df), df.length⟩ := by
      have h := fromChars_digit_run df [] cIntMin cIntMax h4 a4
        (by intro c cs hc; exact absurd hc (by simp)) (cIntMin_le_cast _) b4
      rwa [List.append_nil] at h
    have h := parse_text_time_run dh dm dsec ('.' :: df) out h1 h2 h3 a1 a2 a3 b1 b2 b3
      (by intro c cs hc; injection hc with hc1 _; rw [← hc1]; decide)
    rw [h, if_pos (show (('.' :: df).get? 0) = some '.' from rfl)]
    simp only [List.drop_succ_cons, List.drop_zero, hfF, fcStep]
  · intro f n h
    unfold scaleFraction
    rw [if_neg (by omega)]
  · intro m n h
    unfold scaleFraction
    rw [if_pos h]
    exact tdiv_fold (n - 6) m

theorem c4_text_time_amended_witness :
    parse_text_time "12:34:56.1234567".data 0 = (45296123456, Ret.ok) := by
  have h := c4_text_time_amended.2.1 "12".data "34".data "56".data "1234567".data 0
    (by decide) (by decide) (by decide) (by decide) (by decide) (by decide) (by decide)
    (by decide) (by decide) (by decide) (by decide) (by decide)
  rw [show "12:34:56.1234567".data =
    "12".data ++ (':' :: ("34".data ++ (':' :: ("56".data ++ ('.' :: "1234567".data)))))
    by decide]
  rw [h]
  decide
/-- C5: the claim (like the comment inside `resultset_setup` itself) states
that a Sync tag between the Describe and the Execute of an extended-query
group yields `incompatible_response_type`.  The scan loop however treats
`sync` exactly like `flush` / `parse` / `bind` (`case sync: continue;`), so
the group is accepted and the full end offset is returned. -/
theorem c5_setup_tolerates_sync_between_describe_and_execute :
    resultset_setup [Tag.describe, Tag.sync, Tag.execute] 0 = SetupRes.ok 3 ∧
    resultset_setup [Tag.parseMsg, Tag.bind, Tag.describe, Tag.sync, Tag.execute] 0 =
      SetupRes.ok 5 := by
  decide

/-- C9: the claim states that `resultset_setup` never reads outside the tag
vector and returns an error when the segment at the offset is empty or
consists only of Sync / Flush tags.  The code dereferences `*it` without an
end check right after the skip loop, which on those inputs is a read one
past the end of the tag vector (`SetupRes.oob`), not an error return. -/
theorem c9_setup_reads_past_end :
    resultset_setup [Tag.sync] 0 = SetupRes.oob ∧
    resultset_setup [] 0 = SetupRes.oob ∧
    resultset_setup [Tag.sync, Tag.flush] 0 = SetupRes.oob ∧
    resultset_setup [Tag.query, Tag.sync] 1 = SetupRes.oob := by
  decide

/-- C3 as amended: `parse_text_date` succeeds only on inputs of exactly 10
bytes with `-` separators at indices 4 and 7; the ` BC` suffix and the
infinity literals are rejected as wrong-length `protocol_value_error` (so no
BC year transformation exists), and calendar validity is not checked
(`2024-02-30` is accepted). -/
theorem c3_text_date_amended :
    (∀ (s : List Char) (out : Int), (parse_text_date s out).2 = Ret.ok →
      s.length = 10 ∧ s.get? 4 = some '-' ∧ s.get? 7 = some '-') ∧
    (parse_text_date "2024-02-30".data 0).2 = Ret.ok ∧
    (parse_text_date "-infinity".data 0).2 = Ret.err Errc.protocolValueError := by
  refine ⟨?_, by decide, by decide⟩
  intro s out h
  unfold parse_text_date fcStep at h
  split at h
  · simp at h
  next hlen =>
    split at h
    · simp at h
    · simp at h
    · split at h
      · simp at h
      next hd4 =>
        split at h
        · simp at h
        · simp at h
        · split at h
          · simp at h
          next hd7 =>
            split at h
            · simp at h
            · simp at h
            · exact ⟨by omega, by simpa using hd4, by simpa using hd7⟩

theorem c3_text_date_amended_witness :
    "1977-06-21".data.length = 10 ∧ "1977-06-21".data.get? 4 = some '-' ∧
      "1977-06-21".data.get? 7 = some '-' :=
  c3_text_date_amended.1 "1977-06-21".data 0 (by decide)

/-- C6 (serialization modelled from the spec): `add_advanced_impl` provides
the strong guarantee.  When serialization fails the error is thrown before
the tag push, so neither the byte buffer nor the tag vector changes; on
success the buffer is extended by exactly the serialized frame and the tag
vector by exactly the one tag, keeping the two sequences parallel. -/
theorem c6_add_advanced_impl_strong_guarantee :
    ∀ (req : Request) (msgType : Nat) (payload : List Nat) (t : Tag),
      (∀ e, serializeMsg msgType payload = Except.error e →
        add_advanced_impl req msgType payload t = (req, some e)) ∧
      (∀ frame, serializeMsg msgType payload = Except.ok frame →
        add_advanced_impl req msgType payload t =
          (⟨req.buffer ++ frame, req.tags ++ [t]⟩, none) ∧
        (add_advanced_impl req msgType payload t).1.tags.length = req.tags.length + 1 ∧
        (add_advanced_impl req msgType payload t).1.buffer.length =
          req.buffer.length + frame.length) := by
  intro req msgType payload t
  constructor
  · intro e he
    unfold add_advanced_impl
    rw [he]
  · intro frame hf
    unfold add_advanced_impl
    rw [hf]
    exact ⟨rfl, by simp, by simp⟩

theorem c6_add_advanced_impl_strong_guarantee_witness :
    add_advanced_impl ⟨[], []⟩ 80 [0] Tag.parseMsg =
      (⟨[80, 0, 0, 0, 5, 0], [Tag.parseMsg]⟩, none) :=
  (((c6_add_advanced_impl_strong_guarantee ⟨[], []⟩ 80 [0] Tag.parseMsg).2)
    [80, 0, 0, 0, 5, 0] rfl).1

/-- The return status of `parse_text_int` does not depend on the incoming
value of the out-parameter. -/
theorem parse_text_int_snd (s : List Char) (lo hi x y : Int) :
    (parse_text_int s lo hi x).2 = (parse_text_int s lo hi y).2 := by
  unfold parse_text_int
  rcases hr : (fromChars s lo hi).res <;> simp [hr]

/-- The return status of `parse_binary_int` does not depend on the incoming
value of the out-parameter. -/
theorem parse_binary_int_snd (w : Nat) (d : List Nat) (x y : Int) :
    (parse_binary_int w d x).2 = (parse_binary_int w d y).2 := by
  unfold parse_binary_int
  split <;> rfl

/-- C10: `field_parse` for int32 / int64 targets selects the parse width from
the column `type_oid`, not from the target type.  With `type_oid = 21` the
int64 and int32 parsers return exactly the status of the int16 parser, so
the text payload `70000` (bytes `[55, 48, 48, 48, 48]`), although it fits
both int32 and int64, fails with `result_out_of_range`; with `type_oid = 20`
the same payload parses to 70000. -/
theorem c10_field_parse_width_from_type_oid :
    (∀ (data : List Nat) (desc : FieldDescription) (a b : Int), desc.typeOid = int2Oid →
        (field_parse_int64 (some data) desc a).2 = (field_parse_int16 (some data) desc b).2 ∧
        (field_parse_int32 (some data) desc a).2 = (field_parse_int16 (some data) desc b).2) ∧
    field_parse_int64 (some [55, 48, 48, 48, 48]) ⟨"n", 0, 0, 21, 0, 0, FmtCode.text⟩ 0 =
      (0, Ret.err Errc.resultOutOfRange) ∧
    field_parse_int32 (some [55, 48, 48, 48, 48]) ⟨"n", 0, 0, 21, 0, 0, FmtCode.text⟩ 0 =
      (0, Ret.err Errc.resultOutOfRange) ∧
    field_parse_int16 (some [55, 48, 48, 48, 48]) ⟨"n", 0, 0, 21, 0, 0, FmtCode.text⟩ 9 =
      (9, Ret.err Errc.resultOutOfRange) ∧
    field_parse_int64 (some [55, 48, 48, 48, 48]) ⟨"n", 0, 0, 20, 0, 0, FmtCode.text⟩ 0 =
      (70000, Ret.ok) := by
  refine ⟨?_, by decide, by decide, by decide, by decide⟩
  intro data desc a b h
  unfold field_parse_int64 field_parse_int32 field_parse_int16
  rw [h]
  constructor <;>
    · simp only [if_pos rfl]
      cases desc.fmtCode <;>
        simp [parse_text_int_snd _ _ _ 0 b, parse_binary_int_snd _ _ 0 b]

theorem c10_field_parse_width_from_type_oid_witness :
    (field_parse_int64 (some [55, 48]) ⟨"n", 0, 0, 21, 0, 0, FmtCode.binary⟩ 3).2 =
      (field_parse_int16 (some [55, 48]) ⟨"n", 0, 0, 21, 0, 0, FmtCode.binary⟩ 9).2 :=
  (c10_field_parse_width_from_type_oid.1 [55, 48] ⟨"n", 0, 0, 21, 0, 0, FmtCode.binary⟩ 3 9
    rfl).1

/-- A list with only empty error codes has no first error. -/
theorem firstError_eq_none (l : List ExtendedError) (h : ∀ r ∈ l, r.code = none) :
    firstError l = none := by
  induction l with
  | nil => rfl
  | cons a t ih =>
    have ha : a.code = none := h a (by simp)
    unfold firstError
    simp [ha]
    exact ih (fun r hr => h r (by simp [hr]))

/-- The scan of `response::result()` returns the entry at the lowest index
carrying an error when all earlier entries are error-free. -/
theorem firstError_at (l : List ExtendedError) (i : Nat) (r : ExtendedError)
    (hg : l.get? i = some r) (hr : r.code.isSome = true)
    (hb : ∀ k, k < i → ∀ h, l.get? k = some h → h.code = none) :
    firstError l = some r := by
  induction l generalizing i with
  | nil => simp at hg
  | cons a t ih =>
    cases i with
    | zero =>
      have ha : a = r := by simpa using hg
      subst ha
      unfold firstError
      simp [hr]
    | succ n =>
      have ha : a.code = none := hb 0 (by omega) a rfl
      unfold firstError
      simp [ha]
      exact ih n (by simpa using hg) (fun k hk h hh => hb (k + 1) (by omega) h (by simpa using hh))

/-- C8: `response::result()` returns the result of the lowest-index handler
whose result carries a non-empty error code; when no handler recorded an
error it returns the first handler result.  In particular, when handlers
`i < j` both record errors the overall result is handler `i`'s error. -/
theorem c8_response_result_first_error_wins :
    (∀ (results : List ExtendedError) (i : Nat) (r : ExtendedError),
        results.get? i = some r → r.code.isSome = true →
        (∀ k, k < i → ∀ h, results.get? k = some h → h.code = none) →
        response_result results = r) ∧
    (∀ (results : List ExtendedError), results ≠ [] →
        (∀ r ∈ results, r.code = none) →
        response_result results = results.headD ⟨none, ""⟩) := by
  constructor
  · intro rs i r hg hr hb
    unfold response_result
    rw [firstError_at rs i r hg hr hb]
  · intro rs _ hall
    unfold response_result
    rw [firstError_eq_none rs hall]

theorem c8_response_result_first_error_wins_witness :
    response_result [⟨none, "x"⟩, ⟨some Errc.fieldNotFound, "error"⟩,
      ⟨some Errc.incompatibleFieldType, "other"⟩, ⟨none, ""⟩] =
      ⟨some Errc.fieldNotFound, "error"⟩ :=
  c8_response_result_first_error_wins.1 _ 1 _ rfl rfl (by
    intro k hk h hh
    interval_cases k
    injection hh with hh2
    rw [← hh2])

/-- On a duplicate-free list, the first index found for the element at
position `k` is `k` itself. -/
theorem firstIdx_nodup {α : Type} [DecidableEq α] (l : List α) (k : Nat) (x : α)
    (hnd : l.Nodup) (hg : l.get? k = some x) : firstIdx l x = some k := by
  induction l generalizing k with
  | nil => simp at hg
  | cons a t ih =>
    cases k with
    | zero =>
      have ha : a = x := by simpa using hg
      subst ha
      unfold firstIdx
      rw [if_pos rfl]
    | succ n =>
      have hx : t.get? n = some x := by simpa using hg
      have hmem : x ∈ t := List.get?_mem hx
      have hax : ¬ a = x := by
        intro he
        subst he
        exact (List.nodup_cons.mp hnd).1 hmem
      unfold firstIdx
      rw [if_neg hax, ih n (List.nodup_cons.mp hnd).2 hx]
      rfl

/-- `firstIdx` returns an index of the sought element. -/
theorem firstIdx_some {α : Type} [DecidableEq α] (l : List α) (x : α) (k : Nat)
    (h : firstIdx l x = some k) : l.get? k = some x := by
  induction l generalizing k with
  | nil => simp [firstIdx] at h
  | cons a t ih =>
    unfold firstIdx at h
    by_cases ha : a = x
    · rw [if_pos ha] at h
      injection h with h2
      rw [← h2]
      simpa using ha
    · rw [if_neg ha] at h
      rcases Option.map_eq_some'.mp h with ⟨m, hm, hmk⟩
      rw [← hmk]
      simpa using ih m hm

/-- The field walk preserves the length of the output. -/
theorem posMapFill_length (names : List String) (meta : List FieldDescription) :
    ∀ (i : Nat) (acc : List PosMapEntry), (posMapFill names meta i acc).length = acc.length := by
  induction meta with
  | nil => intro i acc; rfl
  | cons f rest ih =>
    intro i acc
    unfold posMapFill
    cases hf : firstIdx names f.name with
    | none => simp only [hf]; exact ih (i + 1) acc
    | some k0 =>
      simp only [hf]
      rw [ih (i + 1) (acc.set k0 ⟨some i, f⟩)]
      exact List.length_set acc k0 _

/-- A slot whose name matches no remaining field is left untouched by the
field walk. -/
theorem posMapFill_uncovered (names : List String) (meta : List FieldDescription) :
    ∀ (i : Nat) (acc : List PosMapEntry) (k : Nat),
      (∀ j f, meta.get? j = some f → firstIdx names f.name ≠ some k) →
      (posMapFill names meta i acc).get? k = acc.get? k := by
  induction meta with
  | nil => intro i acc k _; rfl
  | cons f0 rest ih =>
    intro i acc k h
    have hrest : ∀ j f, rest.get? j = some f → firstIdx names f.name ≠ some k :=
      fun j f hj => h (j + 1) f (by simpa using hj)
    unfold posMapFill
    cases hf : firstIdx names f0.name with
    | none =>
      simp only [hf]
      exact ih (i + 1) acc k hrest
    | some k0 =>
      have hk0 : k0 ≠ k := by
        intro he
        exact h 0 f0 rfl (by rw [hf, he])
      simp only [hf]
      rw [ih (i + 1) (acc.set k0 ⟨some i, f0⟩) k hrest]
      exact List.get?_set_ne _ _ hk0

/-- A slot whose name matches some field in the walk ends up holding the
index and metadata of a matching field (the LAST matching one, because later
writes overwrite earlier ones). -/
theorem posMapFill_covered (names : List String) (meta : List FieldDescription) :
    ∀ (i : Nat) (acc : List PosMapEntry) (k j : Nat) (f : FieldDescription),
      k < acc.length → meta.get? j = some f → firstIdx names f.name = some k →
      ∃ j2 f2, (posMapFill names meta i acc).get? k = some ⟨some (i + j2), f2⟩ ∧
        meta.get? j2 = some f2 ∧ firstIdx names f2.name = some k := by
  induction meta with
  | nil => intro i acc k j f _ hj _; simp at hj
  | cons f0 rest ih =>
    intro i acc k j f hk hj hfi
    by_cases hcov : ∃ jr fr, rest.get? jr = some fr ∧ firstIdx names fr.name = some k
    · obtain ⟨jr, fr, hjr, hfir⟩ := hcov
      have hlen : k < (match firstIdx names f0.name with
          | some k0 => acc.set k0 ⟨some i, f0⟩
          | none => acc).length := by
        cases hf0 : firstIdx names f0.name <;> simp [List.length_set, hk]
      obtain ⟨j2, f2, hres, hj2, hfi2⟩ := ih (i + 1) _ k jr fr hlen hjr hfir
      refine ⟨j2 + 1, f2, ?_, by simpa using hj2, hfi2⟩
      unfold posMapFill
      rw [show i + (j2 + 1) = i + 1 + j2 by omega]
      exact hres
    · have hj0 : j = 0 := by
        cases j with
        | zero => rfl
        | succ n => exact absurd ⟨n, f, by simpa using hj, hfi⟩ hcov
      subst hj0
      have hf0 : f0 = f := by simpa using hj
      subst hf0
      have hrest : ∀ jr fr, rest.get? jr = some fr → firstIdx names fr.name ≠ some k :=
        fun jr fr hjr hx => hcov ⟨jr, fr, hjr, hx⟩
      unfold posMapFill
      rw [hfi]
      rw [posMapFill_uncovered names rest (i + 1) (acc.set k ⟨some i, f0⟩) k hrest]
      refine ⟨0, f0, ?_, rfl, hfi⟩
      rw [Nat.add_zero]
      exact List.get?_set_eq_of_lt _ hk

/-- C7 as amended: when the declared names are pairwise distinct and every
declared name occurs among the server field names, `compute_pos_map`
succeeds and no output entry holds the invalid sentinel; each entry holds a
server column index and the metadata of a column whose name equals the
declared name of that slot.  When some declared name does not occur among
the server field names the call returns `field_not_found` (second conjunct).
Duplicate server-side names: later occurrences overwrite earlier ones, shown
concretely by the last conjunct.  (The distinctness hypothesis is necessary:
with duplicate declared names the call fails even when every declared name
occurs, see the counterexample.) -/
theorem c7_pos_map_amended :
    (∀ (meta : List FieldDescription) (names : List String),
        names.Nodup →
        (∀ n ∈ names, n ∈ meta.map FieldDescription.name) →
        (compute_pos_map meta names).2 = Ret.ok ∧
        (compute_pos_map meta names).1.length = names.length ∧
        (∀ k, k < names.length →
          ∃ j f, (compute_pos_map meta names).1.get? k = some ⟨some j, f⟩ ∧
            meta.get? j = some f ∧ names.get? k = some f.name)) ∧
    (∀ (meta : List FieldDescription) (names : List String),
        (∃ n, n ∈ names ∧ n ∉ meta.map FieldDescription.name) →
        (compute_pos_map meta names).2 = Ret.err Errc.fieldNotFound) ∧
    compute_pos_map
        [⟨"a", 1, 0, 0, 0, 0, FmtCode.text⟩, ⟨"a", 2, 0, 0, 0, 0, FmtCode.text⟩] ["a"] =
      ([⟨some 1, ⟨"a", 2, 0, 0, 0, 0, FmtCode.text⟩⟩], Ret.ok) := by
  refine ⟨?_, ?_, by decide⟩
  case refine_2 =>
    intro meta names hmiss
    obtain ⟨n, hn_mem, hn_not⟩ := hmiss
    obtain ⟨k, hk⟩ := List.mem_iff_get?.mp hn_mem
    have huncov : ∀ j f, meta.get? j = some f → firstIdx names f.name ≠ some k := by
      intro j f hj hfi
      have h1 : names.get? k = some f.name := firstIdx_some names f.name k hfi
      have h2 : f.name = n := by
        rw [hk] at h1
        injection h1 with h1
        exact h1.symm
      apply hn_not
      rw [← h2]
      exact List.mem_map_of_mem _ (List.get?_mem hj)
    have hslot : (posMapFill names meta 0 (names.map (fun _ => invalidEntry))).get? k =
        some invalidEntry := by
      rw [posMapFill_uncovered names meta 0 _ k huncov, List.get?_map, hk]
      rfl
    have hany : (posMapFill names meta 0 (names.map (fun _ => invalidEntry))).any
        (fun e => e.dbIndex.isNone) = true := by
      rw [List.any_eq_true]
      exact ⟨invalidEntry, List.mem_iff_get?.mpr ⟨k, hslot⟩, rfl⟩
    unfold compute_pos_map
    simp only [hany, eq_self_iff_true, if_true]
  intro meta names hnd hcov
  have key : ∀ k, k < names.length →
      ∃ j f, (posMapFill names meta 0 (names.map (fun _ => invalidEntry))).get? k =
          some ⟨some j, f⟩ ∧ meta.get? j = some f ∧ firstIdx names f.name = some k := by
    intro k hk
    have hx : names.get? k = some (names.get ⟨k, hk⟩) := List.get?_eq_get hk
    have hxmem : names.get ⟨k, hk⟩ ∈ names.map (fun n => n) := by
      simpa using List.get_mem names k hk
    have hxmeta : names.get ⟨k, hk⟩ ∈ meta.map FieldDescription.name :=
      hcov _ (by simpa using hxmem)
    obtain ⟨jf, hjf⟩ := List.mem_iff_get?.mp hxmeta
    rw [List.get?_map] at hjf
    rcases hmj : meta.get? jf with _ | f
    · rw [hmj] at hjf; simp at hjf
    · rw [hmj] at hjf
      have hfname : f.name = names.get ⟨k, hk⟩ := by simpa using hjf
      have hfi : firstIdx names f.name = some k := by
        rw [hfname]
        exact firstIdx_nodup names k _ hnd hx
      have hk2 : k < (names.map (fun _ => invalidEntry)).length := by simpa using hk
      obtain ⟨j2, f2, hres, hj2, hfi2⟩ :=
        posMapFill_covered names meta 0 (names.map (fun _ => invalidEntry)) k jf f hk2 hmj hfi
      exact ⟨j2, f2, by simpa using hres, hj2, hfi2⟩
  have hany : (posMapFill names meta 0 (names.map (fun _ => invalidEntry))).any
      (fun e => e.dbIndex.isNone) = false := by
    rw [Bool.eq_false_iff]
    intro hx
    rw [List.any_eq_true] at hx
    obtain ⟨e, he, hnone⟩ := hx
    obtain ⟨k, hk⟩ := List.mem_iff_get?.mp he
    have hklt : k < names.length := by
      have h1 := (List.get?_eq_some.mp hk).1
      rw [posMapFill_length] at h1
      simpa using h1
    obtain ⟨j, f, hres, _, _⟩ := key k hklt
    rw [hk] at hres
    injection hres with h2
    rw [h2] at hnone
    simp at hnone
  have hmain : compute_pos_map meta names =
      (posMapFill names meta 0 (names.map (fun _ => invalidEntry)), Ret.ok) := by
    unfold compute_pos_map
    simp only [hany, Bool.false_eq_true, if_false]
  rw [hmain]
  refine ⟨rfl, ?_, ?_⟩
  · rw [posMapFill_length]; simp
  · intro k hk
    obtain ⟨j, f, hres, hj, hfi⟩ := key k hk
    exact ⟨j, f, hres, hj, firstIdx_some names f.name k hfi⟩

theorem c7_pos_map_amended_witness :
    (compute_pos_map [⟨"b", 0, 0, 0, 0, 0, FmtCode.text⟩, ⟨"a", 0, 0, 0, 0, 0, FmtCode.text⟩]
      ["a", "b"]).2 = Ret.ok ∧
    (compute_pos_map [⟨"b", 0, 0, 0, 0, 0, FmtCode.text⟩] ["a"]).2 =
      Ret.err Errc.fieldNotFound :=
  ⟨(c7_pos_map_amended.1 _ _ (by decide) (by decide)).1,
   c7_pos_map_amended.2.1 _ _ ⟨"a", by decide, by decide⟩⟩

/-- C7 counterexample: the claim quantifies over every declared name table
and states that `compute_pos_map` succeeds whenever every declared name
occurs among the server field names.  With the duplicate declared table
`["a", "a"]` and a single server column `a`, every declared name does occur,
yet both server walk steps write the FIRST matching slot, the second slot
stays invalid and the call fails with `field_not_found`. -/
theorem c7_pos_map_counterexample :
    "a" ∈ List.map FieldDescription.name [⟨"a", 0, 0, 0, 0, 0, FmtCode.text⟩] ∧
    ["a", "a"] = List.replicate 2 "a" ∧
    compute_pos_map [⟨"a", 0, 0, 0, 0, 0, FmtCode.text⟩] ["a", "a"] =
      ([⟨some 0, ⟨"a", 0, 0, 0, 0, 0, FmtCode.text⟩⟩, invalidEntry],
        Ret.err Errc.fieldNotFound) := by
  refine ⟨by decide, by decide, by decide⟩

end NativePg
